import Mathlib

/-!
Verification of the Yume reminder scheduling engine.

Shallow embedding of the scheduling decision code:
  * `aiagents/ai_scheduler.py` — deterministic resolver, AI-suggestion
    validator, arbitration, fallback schedule;
  * `services/ai_scheduler.py` — scheduler slots, debounced deferred run,
    run scheduling / firing;
  * `services/scheduler_run_logger.py` — run-lifecycle log.

Wall-clock datetimes are modelled as minutes since the epoch
(day 0 = 1970-01-01, a Thursday).  `timezone_utils.to_user_tz` only
reinterprets the wall-clock fields in the user timezone (`dt.replace`),
so it is the identity on the wall-clock minute value and does not appear
explicitly in the model.
-/

namespace Yume

/-- Minimum lead time (15 minutes), `datetime.timedelta(minutes=15)`. -/
def minLeadMinutes : Int := 15

/-- `dt.date()` as a day number: floor division by minutes-per-day. -/
def dateOf (m : Int) : Int := m.fdiv 1440

/-- `date.weekday()`: Monday = 0 … Sunday = 6.  Day 0 (1970-01-01) was a
Thursday, hence the offset 3. -/
def weekdayOf (d : Int) : Int := (d + 3).emod 7

/-- `datetime.datetime.combine(date, t)` with `t` in minutes of the day. -/
def combine (d : Int) (t : Int) : Int := d * 1440 + t

/-! ### Data model (`services/memory_manager.py`, `services/ai_scheduler.py`) -/

/-- `ReminderOptions` from `services/memory_manager.py`. -/
structure ReminderOptions where
  datetime_value : Option Int
  time_value : Option String
  days_of_week : Option (List String)
deriving DecidableEq

/-- `MemoryEntry` (the fields read by the scheduler). -/
structure MemoryEntry where
  type : String
  content : String
  place : Option String
  reminder_options : Option ReminderOptions
deriving DecidableEq

/-- `NextRun` from `services/ai_scheduler.py`. -/
structure NextRun where
  next_run_time : Int
  reason : String
  topic : String
  details : Option String
deriving DecidableEq

/-- `ExecutedReminder` from `services/ai_scheduler.py` (declared there but
never constructed anywhere in the repository). -/
structure ExecutedReminder where
  executed_at : Int
  topic : String
deriving DecidableEq

/-! ### Parsing `"HH:MM"` (`datetime.datetime.strptime(t, "%H:%M")`) -/

/-- Split a character list on `:` separators. -/
def splitCols : List Char → List (List Char)
  | [] => [[]]
  | c :: cs =>
    let r := splitCols cs
    if c = ':' then [] :: r
    else
      match r with
      | [] => [[c]]
      | g :: gs => (c :: g) :: gs

/-- Value of a nonempty all-digit character list. -/
def digitsToNat : List Char → Option Nat
  | [] => none
  | cs =>
    if cs.all Char.isDigit then
      some (cs.foldl (fun acc c => acc * 10 + (c.toNat - 48)) 0)
    else none

/-- `strptime(s, "%H:%M").time()` in minutes of the day, `none` on a
`ValueError` (the callers skip the entry in that case). -/
def parseHHMM (s : String) : Option Int :=
  match splitCols s.toList with
  | [h, m] =>
    if h.length ≤ 2 ∧ m.length ≤ 2 then
      match digitsToNat h, digitsToNat m with
      | some hv, some mv =>
        if hv < 24 ∧ mv < 60 then some ((hv : Int) * 60 + mv) else none
      | _, _ => none
    else none
  | _ => none

/-- `d.strip().lower()` applied to a weekday name. -/
def normDay (s : String) : String :=
  String.mk (((s.toList.dropWhile Char.isWhitespace).reverse.dropWhile
    Char.isWhitespace).reverse.map Char.toLower)

/-- The `wk_map` weekday-name table (Monday = 0 … Sunday = 6). -/
def wkMap : List (String × Int) :=
  [("monday", 0), ("tuesday", 1), ("wednesday", 2), ("thursday", 3),
   ("friday", 4), ("saturday", 5), ("sunday", 6)]

/-- Normalised weekday lookup; `none` for unrecognized names (which the
code silently ignores). -/
def lookupWeekday (s : String) : Option Int := wkMap.lookup (normDay s)

/-! ### Stable sorting (Python `list.sort` / `sorted` are stable) -/

/-- One reminder candidate: the tuple
`(candidate_dt, f"Reminder: {content}", memory_id, content)`. -/
structure Cand where
  dt : Int
  desc : String
  mid : String
  content : String
deriving DecidableEq

/-- Insert a candidate after all entries with an earlier-or-equal time
(stable insertion). -/
def insertByTime (c : Cand) : List Cand → List Cand
  | [] => [c]
  | y :: ys => if y.dt ≤ c.dt then y :: insertByTime c ys else c :: y :: ys

/-- Stable sort by `dt`, modelling `candidates.sort(key=lambda x: x[0])`. -/
def sortCands (l : List Cand) : List Cand :=
  l.foldl (fun acc c => insertByTime c acc) []

/-- Stable insertion for integers. -/
def insertInt (x : Int) : List Int → List Int
  | [] => [x]
  | y :: ys => if y ≤ x then y :: insertInt x ys else x :: y :: ys

/-- `sorted` on a list of integers. -/
def sortInts (l : List Int) : List Int :=
  l.foldl (fun acc x => insertInt x acc) []

/-- Python `min` over a list (`none` on an empty list). -/
def pyMinList : List Int → Option Int
  | [] => none
  | x :: xs => some (xs.foldl min x)

/-! ### Date formatting (`strftime('%Y-%m-%d %H:%M')`) -/

/-- Gregorian `(year, month, day)` of a day number (civil-from-days). -/
def civilFromDays (days : Int) : Int × Int × Int :=
  let z := days + 719468
  let era := z.fdiv 146097
  let doe := z - era * 146097
  let yoe := (doe - doe.fdiv 1460 + doe.fdiv 36524 - doe.fdiv 146096).fdiv 365
  let y := yoe + era * 400
  let doy := doe - (365 * yoe + yoe.fdiv 4 - yoe.fdiv 100)
  let mp := (5 * doy + 2).fdiv 153
  let dd := doy - (153 * mp + 2).fdiv 5 + 1
  let mo := mp + (if mp < 10 then 3 else -9)
  (if mo ≤ 2 then y + 1 else y, mo, dd)

/-- Zero-padded two-digit rendering. -/
def pad2 (n : Int) : String := if n < 10 then "0" ++ toString n else toString n

/-- `dt.strftime('%Y-%m-%d %H:%M')`. -/
def fmtYmdHm (m : Int) : String :=
  let day := m.fdiv 1440
  let rem := m - day * 1440
  let c := civilFromDays day
  toString c.1 ++ "-" ++ pad2 c.2.1 ++ "-" ++ pad2 c.2.2 ++ " " ++
    pad2 (rem.fdiv 60) ++ ":" ++ pad2 (rem.emod 60)

/-! ### Deterministic resolver
(`aiagents/ai_scheduler.py`, `_determine_next_run_from_reminders`) -/

/-- Loop body for one target weekday of a recurring reminder
(lines 497-507): next date on/after today matching the weekday, rolled
forward one week if inside the lead window, kept only if it qualifies. -/
def weeklyCandAt (now today t wd : Int) : Option Int :=
  let daysAhead := (wd - weekdayOf today + 7).emod 7
  let c1 := combine (today + daysAhead) t
  let c2 := if c1 < now + minLeadMinutes then combine (today + daysAhead + 7) t else c1
  if now + minLeadMinutes ≤ c2 then some c2 else none

/-- Daily branch (lines 509-514): today at `t`, rolled forward one day if
inside the lead window, kept only if it qualifies. -/
def dailyCandAt (now today t : Int) : Option Int :=
  let c1 := combine today t
  let c2 := if c1 < now + minLeadMinutes then c1 + 1440 else c1
  if now + minLeadMinutes ≤ c2 then some c2 else none

/-- The candidates one memory entry contributes to the resolver
(the body of the `for memory_id, entry in memories.items()` loop). -/
def candidatesOfEntry (now : Int) (mid : String) (e : MemoryEntry) : List Cand :=
  if e.type ≠ "reminder" then []
  else
    match e.reminder_options with
    | none => []
    | some ro =>
      match ro.datetime_value with
      | some dt =>
        -- one-time reminder with explicit datetime (then `continue`)
        if now + minLeadMinutes ≤ dt then
          [⟨dt, "Reminder: " ++ e.content, mid, e.content⟩]
        else []
      | none =>
        match ro.time_value with
        | none => []
        | some ts =>
          if ts = "" then []   -- `if not time_str: continue`
          else
            match parseHHMM ts with
            | none => []       -- `except ValueError: continue`
            | some t =>
              let today := dateOf now
              let days := ro.days_of_week.getD []
              if days.isEmpty then
                match dailyCandAt now today t with
                | some c => [⟨c, "Reminder: " ++ e.content, mid, e.content⟩]
                | none => []
              else
                let targets := days.filterMap lookupWeekday
                targets.filterMap (fun wd =>
                  (weeklyCandAt now today t wd).map
                    (fun c => ⟨c, "Reminder: " ++ e.content, mid, e.content⟩))

/-- All candidates gathered over the memories map, in iteration order. -/
def allCandidates (now : Int) : List (String × MemoryEntry) → List Cand
  | [] => []
  | (mid, e) :: rest => candidatesOfEntry now mid e ++ allCandidates now rest

/-- Join with `"; "` (Python `"; ".join`). -/
def joinSemi : List String → String
  | [] => ""
  | [s] => s
  | s :: rest => s ++ "; " ++ joinSemi rest

/-- Join with `", "` (Python `", ".join`). -/
def joinComma : List String → String
  | [] => ""
  | [s] => s
  | s :: rest => s ++ ", " ++ joinComma rest

/-- `_determine_next_run_from_reminders(memories)` at instant `now`:
the deterministic next-run calculation (lines 438-544). -/
def determine_next_run_from_reminders (now : Int)
    (memories : List (String × MemoryEntry)) : Option NextRun :=
  match sortCands (allCandidates now memories) with
  | [] => none
  | c0 :: rest =>
    let nearby := (c0 :: rest).filter (fun c => (c.dt - c0.dt).natAbs ≤ 15)
    match nearby with
    | [] => none   -- unreachable: the chosen candidate is inside its own window
    | n0 :: ns =>
      if 0 < ns.length then
        let fmtPart := fun (c : Cand) => c.desc ++ " at " ++ fmtYmdHm c.dt
        let topics := (n0 :: ns).map (fun c => c.content)
        some ⟨c0.dt,
          "Deterministic reminder chosen: " ++ fmtPart n0 ++
            " (includes nearby reminders: " ++ joinComma (ns.map fmtPart) ++ ")",
          joinSemi topics, none⟩
      else
        some ⟨c0.dt, "Deterministic reminder chosen: " ++ c0.desc, c0.content, none⟩

/-- The nearby-merge window filter (line 529): all sorted candidates
within 15 minutes of the chosen earliest candidate `c0`. -/
def nearbyOf (c0 : Cand) (l : List Cand) : List Cand :=
  l.filter (fun c => (c.dt - c0.dt).natAbs ≤ 15)

/-! ### AI-suggestion validator and arbitration
(`aiagents/ai_scheduler.py`, `_validate_and_adjust_time` and lines 194-211) -/

/-- `_validate_and_adjust_time`: clamp the AI-suggested time to at least
`now + 15` minutes; `to_user_tz` reinterprets the wall clock unchanged. -/
def validate_and_adjust_time (now : Int) (r : NextRun) : NextRun :=
  let minFutureTime := now + minLeadMinutes
  if r.next_run_time < minFutureTime then
    ⟨minFutureTime,
      "Adjusted from AI suggestion: " ++ r.reason ++ " (minimum 15min delay applied)",
      r.topic, none⟩
  else
    ⟨r.next_run_time, r.reason, r.topic, none⟩

/-- The arbitration step (lines 194-211): pick the candidate with the
smaller delta from `now`.  The source's `elif validated_ai is None`
branch is dead (`_validate_and_adjust_time` always returns a value), so
the validated AI candidate is not optional here. -/
def chooseNextRun (now : Int) (validatedAi : NextRun)
    (deterministic : Option NextRun) : NextRun :=
  match deterministic with
  | none => ⟨validatedAi.next_run_time, validatedAi.reason, validatedAi.topic, none⟩
  | some det =>
    let deltaAi := validatedAi.next_run_time - now
    let deltaDet := det.next_run_time - now
    if deltaDet < deltaAi then det
    else ⟨validatedAi.next_run_time, validatedAi.reason, validatedAi.topic, none⟩

/-- `_create_fallback_schedule(reason, hours, minutes)`. -/
def create_fallback_schedule (now : Int) (reason : String)
    (hours : Int) (minutes : Int) : NextRun :=
  ⟨now + hours * 60 + minutes, reason, "Fallback schedule", none⟩

/-! ### Recurring-occurrence preview
(`aiagents/ai_scheduler.py`, `_calculate_next_reminder_occurrence`) -/

/-- Loop body for one target weekday in
`_calculate_next_reminder_occurrence` (lines 275-288): no lead window,
only strictly-future today occurrences are kept. -/
def calcWeeklyCandAt (now today t wd : Int) : Int :=
  let daysAhead := (wd - weekdayOf today + 7).emod 7
  if daysAhead = 0 then
    let c := combine today t
    if now < c then c else combine (today + 7) t
  else combine (today + daysAhead) t

/-- `_calculate_next_reminder_occurrence(reminder_options)` at instant
`now` (lines 243-301), rendered as the "Next occurrence" line of the AI
prompt. -/
def calculate_next_reminder_occurrence (now : Int)
    (ro : ReminderOptions) : Option Int :=
  match ro.time_value with
  | none => none
  | some ts =>
    if ts = "" then none   -- `if not reminder_options.time_value`
    else
      match parseHHMM ts with
      | none => none
      | some t =>
        let today := dateOf now
        let days := ro.days_of_week.getD []
        if days.isEmpty then
          let c := combine today t
          if now < c then some c else some (combine (today + 1) t)
        else
          let targets := days.filterMap lookupWeekday
          if targets.isEmpty then none
          else pyMinList ((sortInts targets).map (calcWeeklyCandAt now today t))

/-! ### Run-lifecycle log (`services/scheduler_run_logger.py`) -/

/-- `SchedulerRunStatus`. -/
inductive RunStatus
  | scheduled
  | executing
  | completed
  | failed
  | cancelled
deriving DecidableEq

/-- A `SchedulerRunLog` row (the fields the claims depend on). -/
structure RunRow where
  id : String
  scheduled_time : Int
  reason : String
  topic : String
  status : RunStatus
deriving DecidableEq

/-- The `scheduler_runs` collection, in insertion order. -/
abbrev RunDB := List RunRow

/-- `cancel_previous_scheduled_runs`: bulk update of every
`status=scheduled` row to `cancelled` (its own exceptions are caught and
turn into a return value of 0, so the operation never raises). -/
def cancel_previous_scheduled_runs (db : RunDB) : RunDB :=
  db.map (fun r => if r.status = RunStatus.scheduled
    then { r with status := RunStatus.cancelled } else r)

/-- `find_one_and_update({"id": run_id}, ...)`: update the first row with
the given id; no-op (with a warning) when the row is missing. -/
def updateFirstById (i : String) (f : RunRow → RunRow) : RunDB → RunDB
  | [] => []
  | r :: rs => if r.id = i then f r :: rs else r :: updateFirstById i f rs

/-- `log_execution_start`: `scheduled → executing` on the row. -/
def log_execution_start (i : String) (db : RunDB) : RunDB :=
  updateFirstById i (fun r => { r with status := RunStatus.executing }) db

/-- `log_execution_completion`: terminal `completed` transition. -/
def log_execution_completion (i : String) (db : RunDB) : RunDB :=
  updateFirstById i (fun r => { r with status := RunStatus.completed }) db

/-- `log_execution_failure`: terminal `failed` transition. -/
def log_execution_failure (i : String) (db : RunDB) : RunDB :=
  updateFirstById i (fun r => { r with status := RunStatus.failed }) db

/-- One logger call, as issued by the engine.  `logScheduled` is the
logging effect of `AIScheduler.schedule_next_run`: it first bulk-cancels
all previously scheduled rows, then inserts the new row in `scheduled`
state (`log_scheduled_run`). -/
inductive LogOp
  | logScheduled (i : String) (t : Int) (reason topic : String)
  | execStart (i : String)
  | execComplete (i : String)
  | execFail (i : String)
deriving DecidableEq

/-- Apply one logger call to the collection. -/
def applyLogOp (db : RunDB) : LogOp → RunDB
  | LogOp.logScheduled i t reason topic =>
    cancel_previous_scheduled_runs db ++ [⟨i, t, reason, topic, RunStatus.scheduled⟩]
  | LogOp.execStart i => log_execution_start i db
  | LogOp.execComplete i => log_execution_completion i db
  | LogOp.execFail i => log_execution_failure i db

/-- Run a sequence of logger calls from the empty collection. -/
def runLogOps (ops : List LogOp) : RunDB := ops.foldl applyLogOp []

/-- Number of rows whose status is `scheduled`. -/
def countScheduled (db : RunDB) : Nat :=
  (db.filter (fun r => r.status = RunStatus.scheduled)).length

/-- Number of rows whose status is `scheduled` or `executing`. -/
def countActive (db : RunDB) : Nat :=
  (db.filter (fun r =>
    r.status = RunStatus.scheduled ∨ r.status = RunStatus.executing)).length

/-! ### Engine state and failure propagation
(`services/ai_scheduler.py`, `schedule_next_run` / `_trigger_memory_reminder`;
`services/scheduler_run_logger.py`, `log_scheduled_run`) -/

/-- The reminder-slot engine state: the run log, the queryable
`last_next_run`, and the single pending reminder timer
`(run time, reason, topic, run id)`. -/
structure EngineState where
  db : RunDB
  lastNextRun : Option NextRun
  reminderJob : Option (Int × String × String × String)
deriving DecidableEq

/-- `log_scheduled_run`: insert the new row in `scheduled` state.  A
datastore failure is caught, logged locally, and then RE-RAISED
(`except Exception as e: logger.error(...); raise`), modelled by the
`Except.error` result. -/
def log_scheduled_run (insertFails : Bool) (i : String) (t : Int)
    (reason topic : String) (db : RunDB) : Except String RunDB :=
  if insertFails then Except.error "Error logging scheduled run"
  else Except.ok (db ++ [⟨i, t, reason, topic, RunStatus.scheduled⟩])

/-- `AIScheduler.schedule_next_run`: store `last_next_run`, bulk-cancel
prior scheduled rows, insert the new log row, then install the timer
(`_schedule_memory_reminder`, whose own body is wrapped in
try/except and never raises).  There is no try/except around the
logging calls, so an insert failure propagates out (second component)
and the timer is NOT installed. -/
def schedule_next_run (insertFails : Bool) (runId : String) (nr : NextRun)
    (st : EngineState) : EngineState × Option String :=
  let st1 : EngineState :=
    { st with lastNextRun := some nr, db := cancel_previous_scheduled_runs st.db }
  match log_scheduled_run insertFails runId nr.next_run_time nr.reason nr.topic st1.db with
  | Except.error e => (st1, some e)
  | Except.ok db2 =>
    let st2 : EngineState :=
      { db := db2, lastNextRun := st1.lastNextRun,
        reminderJob := some (nr.next_run_time, nr.reason, nr.topic, runId) }
    (st2, none)

/-- `AIScheduler._trigger_memory_reminder` at fire time: log execution
start, invoke the engine callback, then log completion or failure.  Each
lifecycle logger write catches its datastore errors internally (modelled
by the `…Fails` flags leaving the collection unchanged), and the whole
body is wrapped in try/except, so the function never raises; it returns
the engine result on success and `none` on an engine failure. -/
def trigger_memory_reminder (startFails complFails failFails : Bool)
    (engineResult : Except String String) (runId : String)
    (st : EngineState) : EngineState × Option String :=
  let db1 := if startFails then st.db else log_execution_start runId st.db
  match engineResult with
  | Except.ok r =>
    let db2 := if complFails then db1 else log_execution_completion runId db1
    ({ st with db := db2 }, some r)
  | Except.error _ =>
    let db2 := if failFails then db1 else log_execution_failure runId db1
    ({ st with db := db2 }, none)

/-! ### Debounced deferred-trigger slot
(`services/ai_scheduler.py`, `schedule_deferred_run`) -/

/-- Debounce delay: `datetime.timedelta(seconds=60)`. -/
def debounceDelay : Int := 60

/-- The deferred-run slot: the pending timer's fire time (seconds) and
the times at which the deferred callback actually executed. -/
structure DeferredState where
  pending : Option Int
  fired : List Int
deriving DecidableEq

/-- Let the pending timer elapse if its fire time has been reached by
instant `t`. -/
def fireDue (t : Int) (s : DeferredState) : DeferredState :=
  match s.pending with
  | some f => if f ≤ t then ⟨none, s.fired ++ [f]⟩ else s
  | none => s

/-- `schedule_deferred_run` called at instant `t`: remove the existing
deferred job if present, then arm a fresh timer at `t + 60` seconds. -/
def schedule_deferred_run (t : Int) (s : DeferredState) : DeferredState :=
  ⟨some (t + debounceDelay), s.fired⟩

/-- Process a time-ordered list of `schedule_deferred_run` calls; before
each call, any timer already due has elapsed. -/
def runDeferredCalls : List Int → DeferredState → DeferredState
  | [], s => s
  | t :: ts, s => runDeferredCalls ts (schedule_deferred_run t (fireDue t s))

/-- After the last call, the remaining pending timer eventually elapses;
collect every execution of the deferred callback. -/
def deferredExecutions (calls : List Int) : List Int :=
  let s := runDeferredCalls calls ⟨none, []⟩
  match s.pending with
  | some f => s.fired ++ [f]
  | none => s.fired

/-- The call times are nondecreasing and each consecutive gap is inside
the 60-second debounce window. -/
def callsWithinWindow : List Int → Bool
  | [] => true
  | [_] => true
  | a :: b :: rest => (a ≤ b && b < a + debounceDelay) && callsWithinWindow (b :: rest)

/-! ### The decision pass
(`aiagents/ai_scheduler.py`, `_determine_next_run_by_memory_impl`) -/

/-- The attributes defined on `AIScheduler` in
`services/ai_scheduler.py` (instance attributes set in `__init__`,
followed by the methods of the class, in source order). -/
def aiSchedulerAttrs : List String :=
  ["scheduler", "memory_reminder_job_id", "memory_janitor_job_id",
   "day_planner_job_id", "deferred_run_job_id", "last_next_run",
   "request_day_planner_run",
   "start", "stop", "_schedule_memory_janitor", "_trigger_memory_janitor",
   "_schedule_day_planner", "_update_day_plan", "_run_day_planner_on_startup",
   "_update_all_day_plans", "request_day_planner_execution",
   "schedule_next_run", "_schedule_memory_reminder",
   "_trigger_memory_reminder", "cancel_memory_reminder",
   "cancel_memory_janitor", "get_next_memory_reminder",
   "schedule_deferred_run", "_execute_deferred_run"]

/-- Outcome of one `_determine_next_run_by_memory_impl` pass: either a
`NextRun` handed to `ai_scheduler.schedule_next_run`, or an uncaught
exception escaping the coroutine. -/
inductive ImplOutcome
  | scheduledRun (nr : NextRun)
  | raised (err : String)
deriving DecidableEq

/-- `_determine_next_run_by_memory_impl(…)` (lines 114-220).  Empty
memories short-circuit to the hourly fallback.  Otherwise line 174 reads
`services_ai_scheduler.get_recent_executed_reminders(limit=5)` OUTSIDE
any try/except; the attribute lookup on the `AIScheduler` instance is
modelled against `aiSchedulerAttrs`.  When it resolves, the pass runs
the AI analysis (`aiResult`, an opaque external call), validates it,
computes the deterministic candidate, arbitrates, and schedules the
chosen run; an AI failure is caught and replaced by the 1-hour fallback. -/
def determine_next_run_by_memory_impl (now : Int)
    (memories : List (String × MemoryEntry))
    (aiResult : Except String NextRun) : ImplOutcome :=
  if memories.isEmpty then
    ImplOutcome.scheduledRun
      (create_fallback_schedule now "No memories found - scheduling hourly check" 1 0)
  else if aiSchedulerAttrs.contains "get_recent_executed_reminders" then
    match aiResult with
    | Except.ok nr =>
      let validatedAi := validate_and_adjust_time now nr
      let deterministic := determine_next_run_from_reminders now memories
      ImplOutcome.scheduledRun (chooseNextRun now validatedAi deterministic)
    | Except.error _ =>
      ImplOutcome.scheduledRun
        (create_fallback_schedule now "Agent error occurred - scheduling fallback reminder" 1 0)
  else
    ImplOutcome.raised
      "AttributeError: AIScheduler object has no attribute get_recent_executed_reminders"

/-! ## Helper lemmas -/

theorem mem_insertByTime {x c : Cand} {l : List Cand} :
    x ∈ insertByTime c l ↔ x = c ∨ x ∈ l := by
  induction l with
  | nil => simp [insertByTime]
  | cons y ys ih =>
    simp only [insertByTime]
    split
    · simp only [List.mem_cons, ih]
      tauto
    · simp only [List.mem_cons]

theorem mem_sortCands {x : Cand} {l : List Cand} : x ∈ sortCands l ↔ x ∈ l := by
  have aux : ∀ (l acc : List Cand),
      (x ∈ l.foldl (fun acc c => insertByTime c acc) acc ↔ x ∈ l ∨ x ∈ acc) := by
    intro l
    induction l with
    | nil => intro acc; simp
    | cons c cs ih =>
      intro acc
      simp only [List.foldl_cons]
      rw [ih]
      simp only [mem_insertByTime, List.mem_cons]
      tauto
  simpa [sortCands] using aux l []

theorem pairwise_insertByTime {c : Cand} {l : List Cand}
    (h : l.Pairwise (fun a b => a.dt ≤ b.dt)) :
    (insertByTime c l).Pairwise (fun a b => a.dt ≤ b.dt) := by
  induction l with
  | nil => simp [insertByTime]
  | cons y ys ih =>
    rw [List.pairwise_cons] at h
    obtain ⟨hy, hys⟩ := h
    simp only [insertByTime]
    split
    next hle =>
      rw [List.pairwise_cons]
      refine ⟨?_, ih hys⟩
      intro z hz
      rcases mem_insertByTime.mp hz with rfl | hzys
      · exact hle
      · exact hy z hzys
    next hlt =>
      rw [List.pairwise_cons]
      constructor
      · intro z hz
        rcases List.mem_cons.mp hz with rfl | hzys
        · exact le_of_not_le hlt
        · exact le_trans (le_of_not_le hlt) (hy z hzys)
      · rw [List.pairwise_cons]; exact ⟨hy, hys⟩

theorem sorted_sortCands (l : List Cand) :
    (sortCands l).Pairwise (fun a b => a.dt ≤ b.dt) := by
  have aux : ∀ (l acc : List Cand), acc.Pairwise (fun a b => a.dt ≤ b.dt) →
      (l.foldl (fun acc c => insertByTime c acc) acc).Pairwise
        (fun a b => a.dt ≤ b.dt) := by
    intro l
    induction l with
    | nil => intro acc h; simpa using h
    | cons c cs ih => intro acc h; exact ih _ (pairwise_insertByTime h)
  exact aux l [] (by simp)

theorem weeklyCandAt_ge {now today t wd c : Int}
    (h : weeklyCandAt now today t wd = some c) : now + minLeadMinutes ≤ c := by
  simp only [weeklyCandAt] at h
  split_ifs at h with h1 h2 h3
  · exact (Option.some_inj.mp h) ▸ h2
  · exact (Option.some_inj.mp h) ▸ h3

theorem dailyCandAt_ge {now today t c : Int}
    (h : dailyCandAt now today t = some c) : now + minLeadMinutes ≤ c := by
  simp only [dailyCandAt] at h
  split_ifs at h with h1 h2 h3
  · exact (Option.some_inj.mp h) ▸ h2
  · exact (Option.some_inj.mp h) ▸ h3

theorem candidatesOfEntry_time_ge {now : Int} {mid : String} {e : MemoryEntry}
    {c : Cand} (h : c ∈ candidatesOfEntry now mid e) :
    now + minLeadMinutes ≤ c.dt := by
  unfold candidatesOfEntry at h
  split at h
  · simp at h
  split at h
  · simp at h
  split at h
  · -- one-time reminder
    split at h
    · rename_i hge
      rw [List.mem_singleton] at h
      subst h
      exact hge
    · simp at h
  split at h
  · simp at h
  split at h
  · simp at h
  split at h
  · simp at h
  dsimp only at h
  split at h
  · -- daily branch
    split at h
    · rename_i heq
      rw [List.mem_singleton] at h
      subst h
      exact dailyCandAt_ge heq
    · simp at h
  · -- weekly branch
    rw [List.mem_filterMap] at h
    obtain ⟨wd, _, hwd⟩ := h
    rw [Option.map_eq_some'] at hwd
    obtain ⟨v, hv, hvc⟩ := hwd
    subst hvc
    exact weeklyCandAt_ge hv

theorem allCandidates_time_ge {now : Int} {mems : List (String × MemoryEntry)}
    {c : Cand} (h : c ∈ allCandidates now mems) :
    now + minLeadMinutes ≤ c.dt := by
  induction mems with
  | nil => simp [allCandidates] at h
  | cons p ps ih =>
    rw [allCandidates, List.mem_append] at h
    rcases h with h | h
    · exact candidatesOfEntry_time_ge h
    · exact ih h

theorem sortCands_head_min {c0 : Cand} {rest l : List Cand}
    (h : sortCands l = c0 :: rest) : ∀ x ∈ l, c0.dt ≤ x.dt := by
  intro x hx
  have hmem : x ∈ sortCands l := mem_sortCands.mpr hx
  rw [h] at hmem
  rcases List.mem_cons.mp hmem with rfl | hr
  · exact le_refl _
  · have hp := sorted_sortCands l
    rw [h, List.pairwise_cons] at hp
    exact hp.1 x hr

theorem resolver_eq_some {now : Int} {mems : List (String × MemoryEntry)}
    {res : NextRun} (h : determine_next_run_from_reminders now mems = some res) :
    ∃ c0 rest, sortCands (allCandidates now mems) = c0 :: rest ∧
      res.next_run_time = c0.dt := by
  unfold determine_next_run_from_reminders at h
  split at h
  · simp at h
  rename_i c0 rest heq
  refine ⟨c0, rest, heq, ?_⟩
  dsimp only at h
  split at h
  · simp at h
  split at h
  · rw [Option.some_inj] at h
    rw [← h]
  · rw [Option.some_inj] at h
    rw [← h]

/-! ## Claim theorems -/

/-- C6 (code bug): `aiagents/ai_scheduler.py` line 174 calls
`services_ai_scheduler.get_recent_executed_reminders(limit=5)`, but
`AIScheduler` defines no such attribute — and `_trigger_memory_reminder`
never appends an `ExecutedReminder` — so the executed-reminder ledger
that the claim describes does not exist at runtime: the lookup raises
`AttributeError`. -/
theorem executed_reminder_ledger_missing :
    aiSchedulerAttrs.contains "get_recent_executed_reminders" = false ∧
    aiSchedulerAttrs.contains "schedule_next_run" = true ∧
    aiSchedulerAttrs.contains "schedule_deferred_run" = true := by decide

/-- C1 (code bug): with a non-empty memory set (reminder A at
`now + 10` minutes) and a failing AI suggestion call, the pass raises at
the executed-reminder read (line 174, outside any try/except) before the
AI call is even reached, so the 1-hour fallback is never installed and
no `Scheduled` row is logged. -/
theorem ai_failure_leaves_slot_empty :
    determine_next_run_by_memory_impl 600
      [("a", ⟨"reminder", "reminder A", none, some ⟨some 610, none, none⟩⟩)]
      (Except.error "AI suggestion unavailable")
      = ImplOutcome.raised
          "AttributeError: AIScheduler object has no attribute get_recent_executed_reminders" := by
  decide

/-- C4 counterexample: with the deterministic and the AI candidate at the
same time (1000), `delta_det < delta_ai` is false and the arbitration
returns the AI candidate, not the deterministic one. -/
theorem arbitration_tie_prefers_ai :
    chooseNextRun 0 ⟨1000, "ai reason", "ai topic", none⟩
        (some ⟨1000, "det reason", "det topic", none⟩)
      = ⟨1000, "ai reason", "ai topic", none⟩ ∧
    chooseNextRun 0 ⟨1000, "ai reason", "ai topic", none⟩
        (some ⟨1000, "det reason", "det topic", none⟩)
      ≠ ⟨1000, "det reason", "det topic", none⟩ := by decide

/-- C4 (amended): the arbitration chooses the deterministic candidate
exactly when it is strictly sooner than the validated AI candidate; on a
tie (or when the AI candidate is sooner) the AI candidate is chosen. -/
theorem arbitration_strictly_sooner (now : Int) (ai det : NextRun) :
    (det.next_run_time < ai.next_run_time →
      chooseNextRun now ai (some det) = det) ∧
    (ai.next_run_time ≤ det.next_run_time →
      chooseNextRun now ai (some det)
        = ⟨ai.next_run_time, ai.reason, ai.topic, none⟩) := by
  constructor <;> intro h <;> unfold chooseNextRun <;> dsimp only
  · rw [if_pos (sub_lt_sub_right h now)]
  · rw [if_neg (not_lt.mpr (sub_le_sub_right h now))]

/-- Witness for C4's amended theorem at a concrete strictly-sooner pair. -/
theorem arbitration_strictly_sooner_check :
    chooseNextRun 0 ⟨200, "a", "b", none⟩ (some ⟨100, "c", "d", none⟩)
      = ⟨100, "c", "d", none⟩ :=
  (arbitration_strictly_sooner 0 ⟨200, "a", "b", none⟩ ⟨100, "c", "d", none⟩).1
    (by decide)

/-- C5: every validated AI suggestion and every deterministic resolver
result respects the 15-minute minimum lead time, and the boundary is
inclusive: a suggestion at exactly `now + 15` passes through unchanged,
and a one-time reminder at exactly `now + 15` qualifies as a resolver
candidate. -/
theorem minimum_lead_time_inclusive (now : Int) (r : NextRun)
    (mems : List (String × MemoryEntry)) (res : NextRun) (mid content : String)
    (hres : determine_next_run_from_reminders now mems = some res) :
    now + minLeadMinutes ≤ (validate_and_adjust_time now r).next_run_time ∧
    (r.next_run_time = now + minLeadMinutes →
      validate_and_adjust_time now r = ⟨r.next_run_time, r.reason, r.topic, none⟩) ∧
    now + minLeadMinutes ≤ res.next_run_time ∧
    (now + minLeadMinutes) ∈ (candidatesOfEntry now mid
      ⟨"reminder", content, none,
        some ⟨some (now + minLeadMinutes), none, none⟩⟩).map Cand.dt := by
  refine ⟨?_, ?_, ?_, ?_⟩
  · unfold validate_and_adjust_time
    dsimp only
    split
    · exact le_refl _
    · rename_i hge
      exact le_of_not_lt hge
  · intro heq
    unfold validate_and_adjust_time
    dsimp only
    rw [if_neg (by rw [heq]; exact lt_irrefl _)]
  · obtain ⟨c0, rest, hsort, htime⟩ := resolver_eq_some hres
    have hc0 : c0 ∈ allCandidates now mems := by
      have : c0 ∈ sortCands (allCandidates now mems) := by
        rw [hsort]; exact List.mem_cons_self _ _
      exact mem_sortCands.mp this
    rw [htime]
    exact allCandidates_time_ge hc0
  · simp [candidatesOfEntry]

/-- Witness for C5 at `now = 0` with a one-time reminder at 15. -/
theorem minimum_lead_time_inclusive_check :
    (0 : Int) + minLeadMinutes
        ≤ (validate_and_adjust_time 0 ⟨100, "r", "t", none⟩).next_run_time ∧
    ((100 : Int) = 0 + minLeadMinutes →
      validate_and_adjust_time 0 ⟨100, "r", "t", none⟩ = ⟨100, "r", "t", none⟩) ∧
    (0 : Int) + minLeadMinutes
        ≤ (⟨15, "Deterministic reminder chosen: Reminder: x", "x", none⟩ : NextRun).next_run_time ∧
    ((0 : Int) + minLeadMinutes) ∈ (candidatesOfEntry 0 "a"
      ⟨"reminder", "x", none, some ⟨some (0 + minLeadMinutes), none, none⟩⟩).map Cand.dt :=
  minimum_lead_time_inclusive 0 ⟨100, "r", "t", none⟩
    [("a", ⟨"reminder", "x", none, some ⟨some 15, none, none⟩⟩)]
    ⟨15, "Deterministic reminder chosen: Reminder: x", "x", none⟩ "a" "x" (by decide)

theorem countScheduled_append (a b : RunDB) :
    countScheduled (a ++ b) = countScheduled a + countScheduled b := by
  simp [countScheduled, List.filter_append]

theorem countScheduled_cancel (db : RunDB) :
    countScheduled (cancel_previous_scheduled_runs db) = 0 := by
  induction db with
  | nil => rfl
  | cons r rs ih =>
    simp only [cancel_previous_scheduled_runs, List.map_cons] at *
    by_cases hr : r.status = RunStatus.scheduled <;>
      simp [countScheduled, List.filter_cons, hr] at * <;>
      simpa [countScheduled] using ih

theorem countScheduled_updateFirstById_le (i : String) (f : RunRow → RunRow)
    (hf : ∀ r, (f r).status ≠ RunStatus.scheduled) (db : RunDB) :
    countScheduled (updateFirstById i f db) ≤ countScheduled db := by
  induction db with
  | nil => exact le_refl _
  | cons r rs ih =>
    simp only [updateFirstById]
    split
    · simp only [countScheduled, List.filter_cons]
      have hfr := hf r
      by_cases hr : r.status = RunStatus.scheduled <;>
        simp [hr, hfr, countScheduled]
    · simp only [countScheduled, List.filter_cons]
      by_cases hr : r.status = RunStatus.scheduled <;>
        simp [hr, countScheduled] <;> exact ih

theorem countScheduled_applyLogOp_le (db : RunDB) (op : LogOp) :
    countScheduled (applyLogOp db op) ≤ max 1 (countScheduled db) := by
  cases op with
  | logScheduled i t reason topic =>
    rw [applyLogOp, countScheduled_append, countScheduled_cancel]
    have h1 : countScheduled [(⟨i, t, reason, topic, RunStatus.scheduled⟩ : RunRow)] = 1 := by
      simp [countScheduled]
    rw [h1]
    simp
  | execStart i =>
    exact le_trans
      (countScheduled_updateFirstById_le i _ (fun r => by simp) db)
      (le_max_right 1 _)
  | execComplete i =>
    exact le_trans
      (countScheduled_updateFirstById_le i _ (fun r => by simp) db)
      (le_max_right 1 _)
  | execFail i =>
    exact le_trans
      (countScheduled_updateFirstById_le i _ (fun r => by simp) db)
      (le_max_right 1 _)

/-- C2 counterexample: schedule run a, let it start executing, then
schedule run b — the bulk-cancel only targets `scheduled` rows, so row a
stays `executing` while row b is `scheduled`: two rows are in the
{scheduled, executing} set at once. -/
theorem two_active_rows_reachable :
    countActive (runLogOps
      [LogOp.logScheduled "a" 100 "ra" "ta",
       LogOp.execStart "a",
       LogOp.logScheduled "b" 200 "rb" "tb"]) = 2 := by decide

/-- C2 (amended): after any sequence of logger calls, at most one
`SchedulerRunLog` row has status `scheduled` (the claim's stronger bound
over {scheduled, executing} fails, see the counterexample). -/
theorem at_most_one_scheduled_row (ops : List LogOp) :
    countScheduled (runLogOps ops) ≤ 1 := by
  have aux : ∀ (ops : List LogOp) (db : RunDB), countScheduled db ≤ 1 →
      countScheduled (ops.foldl applyLogOp db) ≤ 1 := by
    intro ops
    induction ops with
    | nil => intro db h; simpa using h
    | cons op rest ih =>
      intro db h
      rw [List.foldl_cons]
      refine ih _ ?_
      have := countScheduled_applyLogOp_le db op
      omega
  exact aux ops [] (by decide)

/-- C3 counterexample: a failing datastore insert inside
`log_scheduled_run` is re-raised (`logger.error(...); raise`) and there
is no try/except around the logging calls in
`AIScheduler.schedule_next_run`, so the error propagates out of the
scheduling path and the reminder timer is never installed. -/
theorem insert_failure_propagates :
    (schedule_next_run true "r1" ⟨100, "reason", "topic", none⟩ ⟨[], none, none⟩).2
      = some "Error logging scheduled run" ∧
    (schedule_next_run true "r1" ⟨100, "reason", "topic", none⟩ ⟨[], none, none⟩).1.reminderJob
      = none := by decide

/-- C3 (amended): failures of the lifecycle logger writes
(execution start / completion / failure) are caught locally and never
propagate — the firing path returns the engine result regardless — but a
`log_scheduled_run` insert failure is re-raised and propagates out of
`schedule_next_run` (exactly when the insert fails). -/
theorem logger_failure_semantics (startFails complFails failFails insertFails : Bool)
    (r e runId : String) (st : EngineState) (nr : NextRun) :
    (trigger_memory_reminder startFails complFails failFails
        (Except.ok r) runId st).2 = some r ∧
    (trigger_memory_reminder startFails complFails failFails
        (Except.error e) runId st).2 = none ∧
    ((schedule_next_run insertFails runId nr st).2 = none ↔ insertFails = false) := by
  refine ⟨?_, ?_, ?_⟩ <;>
    cases insertFails <;>
    simp [trigger_memory_reminder, schedule_next_run, log_scheduled_run]

theorem runDeferredCalls_pending (ts : List Int) :
    ∀ (t : Int) (fired : List Int), callsWithinWindow (t :: ts) = true →
      runDeferredCalls ts ⟨some (t + debounceDelay), fired⟩
        = ⟨some ((t :: ts).getLast (List.cons_ne_nil t ts) + debounceDelay), fired⟩ := by
  induction ts with
  | nil => intro t fired _; rfl
  | cons u us ih =>
    intro t fired hw
    simp only [callsWithinWindow, Bool.and_eq_true, decide_eq_true_eq] at hw
    obtain ⟨⟨htu, hut⟩, hrest⟩ := hw
    rw [runDeferredCalls]
    have hfire : fireDue u ⟨some (t + debounceDelay), fired⟩
        = ⟨some (t + debounceDelay), fired⟩ := by
      simp only [fireDue]
      rw [if_neg (by omega)]
    rw [hfire]
    rw [show schedule_deferred_run u ⟨some (t + debounceDelay), fired⟩
        = ⟨some (u + debounceDelay), fired⟩ from rfl]
    rw [ih u fired hrest]
    rfl

/-- C7: any nonempty burst of `schedule_deferred_run` calls whose
consecutive gaps stay inside the 60-second debounce window collapses to
exactly one execution of the deferred callback, fired 60 seconds after
the last call. -/
theorem debounce_collapse (calls : List Int) (h1 : calls ≠ [])
    (h2 : callsWithinWindow calls = true) :
    deferredExecutions calls = [calls.getLast h1 + debounceDelay] := by
  cases calls with
  | nil => exact absurd rfl h1
  | cons t ts =>
    unfold deferredExecutions
    rw [runDeferredCalls]
    rw [show fireDue t ⟨none, []⟩ = ⟨none, []⟩ from rfl]
    rw [show schedule_deferred_run t ⟨none, []⟩ = ⟨some (t + debounceDelay), []⟩ from rfl]
    rw [runDeferredCalls_pending ts t [] h2]
    rfl

/-- Witness for C7: three calls at 0, 30 and 59 seconds produce a single
execution at 119 = 59 + 60 seconds. -/
theorem debounce_collapse_check : deferredExecutions [0, 30, 59] = [119] := by
  have h := debounce_collapse [0, 30, 59] (by decide) (by decide)
  simpa using h

theorem dateOf_combine {d t : Int} (h0 : 0 ≤ t) (h1 : t < 1440) :
    dateOf (combine d t) = d := by
  unfold dateOf combine
  rw [Int.fdiv_eq_ediv _ (by norm_num)]
  rw [add_comm]
  rw [Int.add_mul_ediv_right _ _ (by norm_num : (1440 : Int) ≠ 0)]
  rw [Int.ediv_eq_zero_of_lt h0 h1]
  simp

/-- C8: a recurring reminder at "09:00" on ["monday"], resolved on any
Monday (day `d`) at 09:30 local time, yields next Monday 09:00 — exactly
one week later — and not today's 09:00. -/
theorem monday_reminder_rolls_one_week (d : Int) (hd : weekdayOf d = 0) :
    determine_next_run_from_reminders (combine d 570)
      [("m1", ⟨"reminder", "weekly standup", none,
        some ⟨none, some "09:00", some ["monday"]⟩⟩)]
      = some ⟨combine (d + 7) 540,
          "Deterministic reminder chosen: Reminder: weekly standup",
          "weekly standup", none⟩ := by
  have hdate : dateOf (combine d 570) = d := dateOf_combine (by norm_num) (by norm_num)
  have hparse : parseHHMM "09:00" = some 540 := by decide
  have htargets : List.filterMap lookupWeekday ["monday"] = [0] := by decide
  have hs1 : "Reminder: " ++ "weekly standup" = "Reminder: weekly standup" := by decide
  have hs2 : "Deterministic reminder chosen: " ++ "Reminder: weekly standup"
      = "Deterministic reminder chosen: Reminder: weekly standup" := by decide
  have hweek : weeklyCandAt (combine d 570) d 540 0 = some (combine (d + 7) 540) := by
    simp only [weeklyCandAt, hd, combine, minLeadMinutes]
    norm_num
    constructor
    · rw [if_pos (by omega : d * 1440 + 540 < d * 1440 + 570 + 15)]
      omega
    · omega
  have hcand : candidatesOfEntry (combine d 570) "m1"
      ⟨"reminder", "weekly standup", none, some ⟨none, some "09:00", some ["monday"]⟩⟩
      = [⟨combine (d + 7) 540, "Reminder: weekly standup", "m1", "weekly standup"⟩] := by
    simp only [candidatesOfEntry, hparse, hdate]
    norm_num
    rw [htargets]
    simp [hweek, hs1]
  unfold determine_next_run_from_reminders
  have hall : allCandidates (combine d 570)
      [("m1", ⟨"reminder", "weekly standup", none,
        some ⟨none, some "09:00", some ["monday"]⟩⟩)]
      = [⟨combine (d + 7) 540, "Reminder: weekly standup", "m1", "weekly standup"⟩] := by
    rw [allCandidates, hcand, allCandidates, List.append_nil]
  rw [hall]
  rw [show sortCands [(⟨combine (d + 7) 540, "Reminder: weekly standup", "m1",
      "weekly standup"⟩ : Cand)] = [⟨combine (d + 7) 540, "Reminder: weekly standup",
      "m1", "weekly standup"⟩] from rfl]
  simp [hs2]

/-- Witness for C8 at the concrete Monday day 4 (1970-01-05). -/
theorem monday_reminder_rolls_one_week_check :
    determine_next_run_from_reminders (combine 4 570)
      [("m1", ⟨"reminder", "weekly standup", none,
        some ⟨none, some "09:00", some ["monday"]⟩⟩)]
      = some ⟨combine (4 + 7) 540,
          "Deterministic reminder chosen: Reminder: weekly standup",
          "weekly standup", none⟩ :=
  monday_reminder_rolls_one_week 4 (by decide)

/-- C9 counterexample: two one-time reminders at the same instant,
stored in the order id "b" before id "a".  The merged topic lists them
in map-iteration order ("B; A"), not in memory-id order ("A; B") as the
claim requires for ties. -/
theorem nearby_merge_tie_not_by_id :
    (determine_next_run_from_reminders 0
      [("b", ⟨"reminder", "B", none, some ⟨some 1000, none, none⟩⟩),
       ("a", ⟨"reminder", "A", none, some ⟨some 1000, none, none⟩⟩)]).map NextRun.topic
      = some "B; A" ∧
    (determine_next_run_from_reminders 0
      [("b", ⟨"reminder", "B", none, some ⟨some 1000, none, none⟩⟩),
       ("a", ⟨"reminder", "A", none, some ⟨some 1000, none, none⟩⟩)]).map NextRun.topic
      ≠ some "A; B" := by decide

/-- C9 (amended): when the sorted candidate list is nonempty with head
`c0`, the nearby set is sorted by occurrence time (ties keep the
map-iteration order of the memories, not memory-id order); every element
of the nearby set lies within 15 minutes of `c0`; every candidate more
than 15 minutes after `c0` is excluded; with two or more nearby
candidates the topic is the "; "-join of all their contents in that
order and the reason lists all their descriptions with times, and with
exactly one nearby candidate the topic is `c0`'s own content. -/
theorem nearby_merge_order (now : Int) (mems : List (String × MemoryEntry))
    (c0 : Cand) (rest : List Cand)
    (h : sortCands (allCandidates now mems) = c0 :: rest) :
    (nearbyOf c0 (c0 :: rest)).Pairwise (fun a b => a.dt ≤ b.dt) ∧
    (∀ x ∈ nearbyOf c0 (c0 :: rest), c0.dt ≤ x.dt ∧ x.dt ≤ c0.dt + 15) ∧
    (∀ x ∈ allCandidates now mems, c0.dt + 15 < x.dt →
      x ∉ nearbyOf c0 (c0 :: rest)) ∧
    (1 < (nearbyOf c0 (c0 :: rest)).length →
      (determine_next_run_from_reminders now mems).map NextRun.topic
        = some (joinSemi ((nearbyOf c0 (c0 :: rest)).map (fun c => c.content)))) ∧
    ((nearbyOf c0 (c0 :: rest)).length = 1 →
      (determine_next_run_from_reminders now mems).map NextRun.topic
        = some c0.content) ∧
    (∀ n0 ns, nearbyOf c0 (c0 :: rest) = n0 :: ns → 0 < ns.length →
      (determine_next_run_from_reminders now mems).map NextRun.reason
        = some ("Deterministic reminder chosen: " ++ (n0.desc ++ " at " ++ fmtYmdHm n0.dt)
            ++ " (includes nearby reminders: "
            ++ joinComma (ns.map (fun c => c.desc ++ " at " ++ fmtYmdHm c.dt)) ++ ")")) := by
  have hmemle : ∀ x ∈ (c0 :: rest), c0.dt ≤ x.dt := by
    intro x hx
    have hx' : x ∈ sortCands (allCandidates now mems) := by rw [h]; exact hx
    exact sortCands_head_min h x (mem_sortCands.mp hx')
  refine ⟨?_, ?_, ?_, ?_, ?_, ?_⟩
  · have hp : (c0 :: rest).Pairwise (fun a b => a.dt ≤ b.dt) := by
      rw [← h]; exact sorted_sortCands _
    exact hp.filter _
  · intro x hx
    have hwin := List.of_mem_filter hx
    have hmem := List.mem_of_mem_filter hx
    have hle := hmemle x hmem
    simp only [decide_eq_true_eq] at hwin
    omega
  · intro x _ hgt hin
    have hwin := List.of_mem_filter hin
    have hmem := List.mem_of_mem_filter hin
    have hle := hmemle x hmem
    simp only [decide_eq_true_eq] at hwin
    omega
  · intro hlen
    unfold determine_next_run_from_reminders
    rw [h]
    dsimp only
    rcases hn : nearbyOf c0 (c0 :: rest) with _ | ⟨n0, ns⟩
    · rw [hn] at hlen; simp at hlen
    · rw [show ((c0 :: rest).filter (fun c => (c.dt - c0.dt).natAbs ≤ 15))
          = nearbyOf c0 (c0 :: rest) from rfl, hn]
      rw [hn] at hlen
      simp only [List.length_cons] at hlen
      dsimp only
      rw [if_pos (by omega)]
      simp
  · intro hlen
    unfold determine_next_run_from_reminders
    rw [h]
    dsimp only
    rcases hn : nearbyOf c0 (c0 :: rest) with _ | ⟨n0, ns⟩
    · rw [hn] at hlen; simp at hlen
    · rw [show ((c0 :: rest).filter (fun c => (c.dt - c0.dt).natAbs ≤ 15))
          = nearbyOf c0 (c0 :: rest) from rfl, hn]
      rw [hn] at hlen
      simp only [List.length_cons] at hlen
      dsimp only
      rw [if_neg (by omega)]
      simp
  · intro n0 ns hn hlen
    unfold determine_next_run_from_reminders
    rw [h]
    dsimp only
    rw [show ((c0 :: rest).filter (fun c => (c.dt - c0.dt).natAbs ≤ 15))
        = nearbyOf c0 (c0 :: rest) from rfl, hn]
    dsimp only
    rw [if_pos hlen]
    simp

theorem foldl_min_le_init : ∀ (xs : List Int) (a : Int), xs.foldl min a ≤ a
  | [], a => le_refl a
  | x :: xs, a => le_trans (foldl_min_le_init xs (min a x)) (min_le_left a x)

theorem foldl_min_le_mem : ∀ (xs : List Int) (a x : Int), x ∈ xs → xs.foldl min a ≤ x
  | [], _, _, h => absurd h (List.not_mem_nil _)
  | y :: ys, a, x, h => by
    rcases List.mem_cons.mp h with rfl | hx
    · exact le_trans (foldl_min_le_init ys (min a x)) (min_le_right a x)
    · exact foldl_min_le_mem ys (min a y) x hx

theorem foldl_min_eq_or_mem : ∀ (xs : List Int) (a : Int),
    xs.foldl min a = a ∨ xs.foldl min a ∈ xs
  | [], _ => Or.inl rfl
  | x :: xs, a => by
    rcases foldl_min_eq_or_mem xs (min a x) with h | h
    · rcases min_choice a x with h' | h'
      · exact Or.inl (by rw [List.foldl_cons, h, h'])
      · exact Or.inr (by rw [List.foldl_cons, h, h']; exact List.mem_cons_self x xs)
    · exact Or.inr (List.mem_cons_of_mem x h)

theorem pyMinList_mem {l : List Int} {c : Int} (h : pyMinList l = some c) : c ∈ l := by
  cases l with
  | nil => simp [pyMinList] at h
  | cons x xs =>
    simp only [pyMinList, Option.some_inj] at h
    rcases foldl_min_eq_or_mem xs x with h' | h'
    · rw [h'] at h; rw [← h]; exact List.mem_cons_self x xs
    · rw [← h]; exact List.mem_cons_of_mem x h'

theorem pyMinList_le {l : List Int} {c : Int} (h : pyMinList l = some c) :
    ∀ x ∈ l, c ≤ x := by
  cases l with
  | nil => simp [pyMinList] at h
  | cons y ys =>
    simp only [pyMinList, Option.some_inj] at h
    intro x hx
    rcases List.mem_cons.mp hx with rfl | hx'
    · rw [← h]; exact foldl_min_le_init ys x
    · rw [← h]; exact foldl_min_le_mem ys y x hx'

theorem mem_insertInt {x c : Int} {l : List Int} :
    x ∈ insertInt c l ↔ x = c ∨ x ∈ l := by
  induction l with
  | nil => simp [insertInt]
  | cons y ys ih =>
    simp only [insertInt]
    split
    · simp only [List.mem_cons, ih]
      tauto
    · simp only [List.mem_cons]

theorem mem_sortInts {x : Int} {l : List Int} : x ∈ sortInts l ↔ x ∈ l := by
  have aux : ∀ (l acc : List Int),
      (x ∈ l.foldl (fun acc c => insertInt c acc) acc ↔ x ∈ l ∨ x ∈ acc) := by
    intro l
    induction l with
    | nil => intro acc; simp
    | cons c cs ih =>
      intro acc
      simp only [List.foldl_cons]
      rw [ih]
      simp only [mem_insertInt, List.mem_cons]
      tauto
  simpa [sortInts] using aux l []

/-- Outside the 15-minute lead window the resolver's per-weekday
candidate coincides with the prompt-preview occurrence. -/
theorem weekly_res_eq_calc {now today t wd : Int}
    (h : now + minLeadMinutes ≤ calcWeeklyCandAt now today t wd) :
    weeklyCandAt now today t wd = some (calcWeeklyCandAt now today t wd) := by
  have hda : 0 ≤ (wd - weekdayOf today + 7).emod 7 :=
    Int.emod_nonneg _ (by norm_num)
  simp only [calcWeeklyCandAt, combine, minLeadMinutes] at h ⊢
  simp only [weeklyCandAt, combine, minLeadMinutes]
  split_ifs at h ⊢ <;>
    first
      | rfl
      | (simp only [Option.some.injEq]; omega)
      | (exfalso; omega)

/-- Outside the lead window the resolver's daily candidate coincides
with the prompt-preview occurrence. -/
theorem daily_res_eq_calc {now today t c : Int}
    (hc : (if now < combine today t then some (combine today t)
           else some (combine (today + 1) t)) = some c)
    (hlead : now + minLeadMinutes ≤ c) :
    dailyCandAt now today t = some c := by
  simp only [combine] at hc
  simp only [dailyCandAt, combine, minLeadMinutes] at hlead ⊢
  split_ifs at hc ⊢ <;>
    simp only [Option.some.injEq] at hc ⊢ <;>
    omega

/-- C10 counterexample: a daily reminder at "09:40" evaluated on Monday
09:30 (inside the 15-minute lead window).  The prompt preview
(`_calculate_next_reminder_occurrence`) keeps today's 09:40, while the
deterministic resolver rolls the same reminder to tomorrow 09:40; the
claimed equality fails. -/
theorem calc_preview_disagrees_with_resolver :
    calculate_next_reminder_occurrence (4 * 1440 + 570) ⟨none, some "09:40", none⟩
      = some (4 * 1440 + 580) ∧
    (candidatesOfEntry (4 * 1440 + 570) "m2"
      ⟨"reminder", "water plants", none, some ⟨none, some "09:40", none⟩⟩).map Cand.dt
      = [5 * 1440 + 580] ∧
    (4 * 1440 + 580 : Int) ≠ 5 * 1440 + 580 := by decide

/-- C10 (amended): whenever the prompt-preview occurrence
`_calculate_next_reminder_occurrence` of a recurring reminder lies at or
beyond the 15-minute lead window, it equals the earliest candidate time
the deterministic resolver derives for that same reminder.  (Inside the
lead window the two legitimately disagree: the preview keeps today's
occurrence while the resolver rolls forward, see the counterexample.) -/
theorem calc_refines_resolver (now : Int) (mid content : String)
    (place : Option String) (ro : ReminderOptions) (c : Int)
    (hdt : ro.datetime_value = none)
    (hc : calculate_next_reminder_occurrence now ro = some c)
    (hlead : now + minLeadMinutes ≤ c) :
    c ∈ (candidatesOfEntry now mid ⟨"reminder", content, place, some ro⟩).map Cand.dt ∧
    ∀ x ∈ (candidatesOfEntry now mid ⟨"reminder", content, place, some ro⟩).map Cand.dt,
      c ≤ x := by
  obtain ⟨dtv, tv, dow⟩ := ro
  dsimp only at hdt
  subst hdt
  cases tv with
  | none => simp [calculate_next_reminder_occurrence] at hc
  | some ts =>
    by_cases hts : ts = ""
    · subst hts
      simp [calculate_next_reminder_occurrence] at hc
    · cases hp : parseHHMM ts with
      | none => simp [calculate_next_reminder_occurrence, hts, hp] at hc
      | some t =>
        simp only [calculate_next_reminder_occurrence, hts, hp, if_false,
          reduceCtorEq] at hc
        unfold candidatesOfEntry
        rw [if_neg (by simp)]
        dsimp only
        rw [if_neg hts, hp]
        dsimp only
        by_cases hdays : ((dow.getD []).isEmpty : Bool)
        · rw [if_pos hdays]
          rw [if_pos hdays] at hc
          rw [daily_res_eq_calc hc hlead]
          constructor
          · simp
          · intro x hx
            simp only [List.map_cons, List.map_nil, List.mem_singleton] at hx
            rw [hx]
        · rw [if_neg hdays]
          rw [if_neg hdays] at hc
          by_cases htg : ((List.filterMap lookupWeekday (dow.getD [])).isEmpty : Bool)
          · rw [if_pos htg] at hc
            simp at hc
          · rw [if_neg htg] at hc
            have hforall : ∀ wd ∈ List.filterMap lookupWeekday (dow.getD []),
                now + minLeadMinutes ≤ calcWeeklyCandAt now (dateOf now) t wd := by
              intro wd hwd
              refine le_trans hlead (pyMinList_le hc _ ?_)
              exact List.mem_map_of_mem _ (mem_sortInts.mpr hwd)
            constructor
            · obtain ⟨v, hv, hveq⟩ := List.mem_map.mp (pyMinList_mem hc)
              have hvt : v ∈ List.filterMap lookupWeekday (dow.getD []) :=
                mem_sortInts.mp hv
              have hres : weeklyCandAt now (dateOf now) t v = some c := by
                rw [weekly_res_eq_calc (hveq ▸ hforall v hvt)]
                rw [hveq]
              rw [List.mem_map]
              refine ⟨⟨c, "Reminder: " ++ content, mid, content⟩, ?_, rfl⟩
              rw [List.mem_filterMap]
              exact ⟨v, hvt, by rw [hres]; rfl⟩
            · intro x hx
              rw [List.mem_map] at hx
              obtain ⟨cand, hcand, hx'⟩ := hx
              rw [List.mem_filterMap] at hcand
              obtain ⟨wd, hwd, hwd'⟩ := hcand
              rw [weekly_res_eq_calc (hforall wd hwd)] at hwd'
              simp only [Option.map_some'] at hwd'
              have hdtx : cand.dt = calcWeeklyCandAt now (dateOf now) t wd := by
                rw [← Option.some_inj.mp hwd']
              rw [← hx', hdtx]
              refine pyMinList_le hc _ ?_
              exact List.mem_map_of_mem _ (mem_sortInts.mpr hwd)

/-- Witness for C10's amended theorem: a daily reminder at "01:00"
evaluated at midnight (occurrence 60 ≥ 0 + 15) appears among the
resolver's candidate times. -/
theorem calc_refines_resolver_check :
    (60 : Int) ∈ (candidatesOfEntry 0 "m"
      ⟨"reminder", "stretch", none, some ⟨none, some "01:00", none⟩⟩).map Cand.dt :=
  (calc_refines_resolver 0 "m" "stretch" none ⟨none, some "01:00", none⟩ 60
    rfl (by decide) (by decide)).1

/-- Witness for C9's amended theorem: reminders at 600 and 610 merge
(topic "X; Y"); the reminder at 700 is outside the window and excluded. -/
theorem nearby_merge_order_check :
    (determine_next_run_from_reminders 0
      [("x", ⟨"reminder", "X", none, some ⟨some 600, none, none⟩⟩),
       ("y", ⟨"reminder", "Y", none, some ⟨some 610, none, none⟩⟩),
       ("z", ⟨"reminder", "Z", none, some ⟨some 700, none, none⟩⟩)]).map NextRun.topic
      = some "X; Y" := by
  have h := (nearby_merge_order 0
    [("x", ⟨"reminder", "X", none, some ⟨some 600, none, none⟩⟩),
     ("y", ⟨"reminder", "Y", none, some ⟨some 610, none, none⟩⟩),
     ("z", ⟨"reminder", "Z", none, some ⟨some 700, none, none⟩⟩)]
    ⟨600, "Reminder: X", "x", "X"⟩
    [⟨610, "Reminder: Y", "y", "Y"⟩, ⟨700, "Reminder: Z", "z", "Z"⟩]
    (by decide)).2.2.2.1 (by decide)
  rw [h]
  decide

end Yume
